import Mathlib

/-!
Shallow embedding of the stock screener's core pipeline (`run_screener` in
`screener.py`): series normalization, SMA/RSI indicator computation with
Wilder's smoothing, bull/bear classification and volume ranking.

Numeric values are modelled as exact rationals.  The one place where IEEE
float semantics matter is the division `rs = avg_gain / avg_loss`: with a
positive numerator and zero denominator the float quotient is infinite and
`100 - 100/(1+rs)` collapses to exactly `100`, while `0/0` is NaN, which then
propagates through `100 - 100/(1+rs)` and makes every ordered comparison
against the resulting RSI false.  We model a possibly-NaN RSI as `Option ℚ`
(`none` = NaN) and encode that division behaviour explicitly in `rsiFrom`.
-/

namespace Screener

attribute [local semireducible] Rat.add Rat.mul Rat.inv Rat.sub

set_option maxRecDepth 8000

/-- A raw table cell as delivered by the data source: a plain scalar, a
single-element container (the multi-index Series artifact), or a value on
which `float(...)` raises. -/
inductive Cell where
  | scalar (v : ℚ)
  | wrapped (v : ℚ)
  | malformed
deriving DecidableEq

/-- Scalar extraction: `float(x.iloc[0]) if isinstance(x, pd.Series) else float(x)`,
with `none` when the conversion raises. -/
def extractCell : Cell → Option ℚ
  | .scalar v => some v
  | .wrapped v => some v
  | .malformed => none

/-- One row of the per-ticker frame: the `Close` and `Volume` cells. -/
structure RawBar where
  close : Cell
  volume : Cell
deriving DecidableEq

/-- The indicator values read off at the final bar, feeding classification.
`rsi = none` models a NaN RSI (the 0/0 degenerate case). -/
structure Snapshot where
  price : ℚ
  volume : ℚ
  sma20 : ℚ
  sma50 : ℚ
  rsi : Option ℚ
deriving DecidableEq

/-- Which rule emitted a candidate. -/
inductive Setup where
  | bull
  | bear
deriving DecidableEq

/-- A candidate row appended to `bullish_candidates` / `bearish_candidates`. -/
structure Candidate where
  ticker : String
  price : ℚ
  vol : ℚ
  rsi : Option ℚ
  setup : Setup
deriving DecidableEq

/-- Final value of `df['Close'].rolling(window=w).mean()`: the arithmetic
mean of the last `w` closes. -/
def sma (w : Nat) (closes : List ℚ) : ℚ :=
  (closes.reverse.take w).sum / (w : ℚ)

/-- Elements `1..` of `delta.where(delta > 0, 0)` where `delta = close.diff()`:
the positive one-step differences (others 0). -/
def diffGains (closes : List ℚ) : List ℚ :=
  List.zipWith (fun a b => max (b - a) 0) closes closes.tail

/-- Elements `1..` of `-delta.where(delta < 0, 0)`: the magnitudes of the
negative one-step differences (others 0). -/
def diffLosses (closes : List ℚ) : List ℚ :=
  List.zipWith (fun a b => max (a - b) 0) closes closes.tail

/-- The full `gain` series: index 0 is the NaN of `diff()` turned into `0`
by `where`, followed by the positive deltas. -/
def gainsList (closes : List ℚ) : List ℚ :=
  match closes with
  | [] => []
  | _ :: _ => 0 :: diffGains closes

/-- The full `loss` series, analogous to `gainsList`. -/
def lossesList (closes : List ℚ) : List ℚ :=
  match closes with
  | [] => []
  | _ :: _ => 0 :: diffLosses closes

/-- One step of `ewm(com=13, adjust=False)`:
`y_t = y_{t-1} + (1/14) * (x_t - y_{t-1})`, i.e. alpha = 1/(1+13) = 1/14. -/
def wilderStep (prev x : ℚ) : ℚ :=
  prev + (1 / 14) * (x - prev)

/-- The `ewm(com=13, adjust=False).mean()` series with seed `a` for the
remaining observations `xs`. -/
def ewmList (a : ℚ) : List ℚ → List ℚ
  | [] => [a]
  | x :: xs => a :: ewmList (wilderStep a x) xs

/-- `series.ewm(com=13, adjust=False).mean()`: seeded with the first
observation, then the Wilder recurrence over the whole history. -/
def ewm : List ℚ → List ℚ
  | [] => []
  | x :: xs => ewmList x xs

/-- The last entry of the Wilder EMA with seed `a` over `xs`. -/
def ewmLast (a : ℚ) : List ℚ → ℚ
  | [] => a
  | x :: xs => ewmLast (wilderStep a x) xs

/-- `avg_gain.iloc[-1]`: final value of the Wilder EMA of the gain series. -/
def avgGainLast (closes : List ℚ) : ℚ :=
  (ewm (gainsList closes)).getLastD 0

/-- `avg_loss.iloc[-1]`: final value of the Wilder EMA of the loss series. -/
def avgLossLast (closes : List ℚ) : ℚ :=
  (ewm (lossesList closes)).getLastD 0

/-- Final RSI from the final average gain `g` and average loss `l`, under the
float semantics of `rs = g / l; rsi = 100 - 100/(1+rs)`: for `l ≠ 0` the exact
rational value; for `l = 0` and `g ≠ 0` the quotient is infinite and the RSI
collapses to exactly 100; for `0/0` the RSI is NaN (`none`). -/
def rsiFrom (g l : ℚ) : Option ℚ :=
  if l = 0 then
    if g = 0 then none else some 100
  else
    some (100 - 100 / (1 + g / l))

/-- `rsi.iloc[-1]` of the RSI series computed elementwise from the smoothed
gain/loss series; only the final averages enter the final value. -/
def rsiOf (closes : List ℚ) : Option ℚ :=
  rsiFrom (avgGainLast closes) (avgLossLast closes)

/-- `current_rsi > c` in Python: false when the RSI is NaN. -/
def rsiGT (r : Option ℚ) (c : ℚ) : Bool :=
  match r with
  | none => false
  | some v => decide (c < v)

/-- `current_rsi < c` in Python: false when the RSI is NaN. -/
def rsiLT (r : Option ℚ) (c : ℚ) : Bool :=
  match r with
  | none => false
  | some v => decide (v < c)

/-- The bullish condition:
`(current_rsi > 40) and (current_price < sma20 * 1.01) and (current_price > sma50)`. -/
def bullRule (s : Snapshot) : Bool :=
  rsiGT s.rsi 40 && decide (s.price < s.sma20 * (101 / 100)) && decide (s.sma50 < s.price)

/-- The bearish condition:
`(current_rsi < 60) and (current_price > sma20 * 0.99) and (current_price < sma50)`. -/
def bearRule (s : Snapshot) : Bool :=
  rsiLT s.rsi 60 && decide (s.sma20 * (99 / 100) < s.price) && decide (s.price < s.sma50)

/-- The dict literal appended to a candidate list. -/
def mkCandidate (t : String) (s : Snapshot) (g : Setup) : Candidate :=
  { ticker := t, price := s.price, vol := s.volume, rsi := s.rsi, setup := g }

/-- The first `if` block: emits a Bull candidate exactly when the bullish
condition holds. -/
def classifyBull (t : String) (s : Snapshot) : Option Candidate :=
  if bullRule s then some (mkCandidate t s .bull) else none

/-- The second `if` block: emits a Bear candidate exactly when the bearish
condition holds, independently of the bullish outcome. -/
def classifyBear (t : String) (s : Snapshot) : Option Candidate :=
  if bearRule s then some (mkCandidate t s .bear) else none

/-- Extraction of the numeric `Close` column; `none` as soon as any
historical cell fails scalar extraction (the pandas operations on such a
column raise, landing in the per-ticker `except: continue`). -/
def extractCloses : List RawBar → Option (List ℚ)
  | [] => some []
  | b :: bs =>
    match extractCell b.close, extractCloses bs with
    | some c, some cs => some (c :: cs)
    | _, _ => none

/-- The per-ticker pipeline body: skip (`none`) on an empty/short frame or on
any failed extraction, otherwise the indicator snapshot of the final bar. -/
def processTicker (bars : List RawBar) : Option Snapshot :=
  if bars.length < 200 then none
  else
    match bars.getLast? with
    | none => none
    | some lastBar =>
      match extractCell lastBar.close, extractCell lastBar.volume, extractCloses bars with
      | some price, some vol, some closes =>
        some { price := price, volume := vol,
               sma20 := sma 20 closes, sma50 := sma 50 closes, rsi := rsiOf closes }
      | _, _, _ => none

/-- Volume-descending order used by `sort(key=lambda x: x['Vol'], reverse=True)`:
`a` goes before `b` when `b.vol ≤ a.vol`. -/
def volGE (a b : Candidate) : Prop :=
  b.vol ≤ a.vol

instance : DecidableRel volGE :=
  fun a b => inferInstanceAs (Decidable (b.vol ≤ a.vol))

instance : IsTotal Candidate volGE :=
  ⟨fun a b => le_total b.vol a.vol⟩

instance : IsTrans Candidate volGE :=
  ⟨fun _ _ _ h1 h2 => le_trans h2 h1⟩

/-- Python's `list.sort` is stable; a stable sort by descending volume is
modelled by insertion sort under `volGE`. -/
def sortByVolDesc (cs : List Candidate) : List Candidate :=
  cs.insertionSort volGE

/-- One output group of the Ranker: sort by volume descending, truncate to
the first `topN` entries (`[:20]` in the source). -/
def rankGroup (cs : List Candidate) (topN : Nat) : List Candidate :=
  (sortByVolDesc cs).take topN

/-- All Bull candidates collected over the processed snapshots, in ticker
order. -/
def collectBulls (snaps : List (String × Snapshot)) : List Candidate :=
  snaps.filterMap (fun p => classifyBull p.1 p.2)

/-- All Bear candidates collected over the processed snapshots, in ticker
order. -/
def collectBears (snaps : List (String × Snapshot)) : List Candidate :=
  snaps.filterMap (fun p => classifyBear p.1 p.2)

/-- Classification plus ranking over the per-ticker snapshots. -/
def screenSnapshots (snaps : List (String × Snapshot)) (topN : Nat) :
    List Candidate × List Candidate :=
  (rankGroup (collectBulls snaps) topN, rankGroup (collectBears snaps) topN)

/-- The whole `run_screener` body after download: normalize and compute per
ticker, classify, sort each group by volume, return the top 20 of each. -/
def runScreener (tickerData : List (String × List RawBar)) :
    List Candidate × List Candidate :=
  screenSnapshots
    (tickerData.filterMap (fun p => (processTicker p.2).map (fun s => (p.1, s)))) 20

/-! Concrete inputs used to instantiate the theorems below. -/

/-- A snapshot above the supposed $50 ceiling that satisfies the bullish rule. -/
def over50Snap : Snapshot :=
  { price := 60, volume := 1000, sma20 := 60, sma50 := 55, rsi := some 50 }

/-- The spec's tolerance-band instance: price exactly 0.5% above SMA20. -/
def dipSnap : Snapshot :=
  { price := 40 * (1005 / 1000), volume := 500, sma20 := 40, sma50 := 30, rsi := some 41 }

/-- A snapshot whose RSI is NaN (the constant-series degenerate case). -/
def nanSnap : Snapshot :=
  { price := 49, volume := 1000, sma20 := 49, sma50 := 49, rsi := none }

/-- A close series with a single early jump, long enough that a trailing
14-bar window of the gains is all zeros while the whole-history EMA is not. -/
def demoTrend : List ℚ :=
  1 :: List.replicate 15 15

/-- A well-formed raw bar. -/
def okBar : RawBar :=
  { close := Cell.scalar 10, volume := Cell.scalar 100 }

/-- A raw bar whose close cell cannot be coerced to a scalar. -/
def badBar : RawBar :=
  { close := Cell.malformed, volume := Cell.scalar 100 }

/-- A family of bull candidates with volume `i`. -/
def mkDemo (i : Nat) : Candidate :=
  { ticker := "T", price := 10, vol := (i : ℚ), rsi := some 50, setup := .bull }

/-- Two distinct candidates with exactly equal volume. -/
def tieA : Candidate :=
  { ticker := "A", price := 1, vol := 5, rsi := some 50, setup := .bull }

/-- See `tieA`. -/
def tieB : Candidate :=
  { ticker := "B", price := 2, vol := 5, rsi := some 50, setup := .bull }

/-! Helper lemmas about the Wilder EMA and the pipeline. -/

theorem ewmList_length (a : ℚ) (xs : List ℚ) : (ewmList a xs).length = xs.length + 1 := by
  induction xs generalizing a with
  | nil => rfl
  | cons x rest ih => simp [ewmList, ih]

theorem ewmList_getD_zero (a : ℚ) (xs : List ℚ) : (ewmList a xs).getD 0 0 = a := by
  cases xs <;> rfl

theorem ewmList_getD_succ (xs : List ℚ) : ∀ (a : ℚ) (i : Nat), i < xs.length →
    (ewmList a xs).getD (i + 1) 0 = wilderStep ((ewmList a xs).getD i 0) (xs.getD i 0) := by
  induction xs with
  | nil =>
    intro a i h
    simp at h
  | cons x rest ih =>
    intro a i h
    cases i with
    | zero =>
      simp only [ewmList, List.getD_cons_succ, List.getD_cons_zero]
      exact ewmList_getD_zero (wilderStep a x) rest
    | succ j =>
      have hj : j < rest.length := by simpa using h
      simp only [ewmList, List.getD_cons_succ]
      exact ih (wilderStep a x) j hj

theorem ewmList_getLastD (xs : List ℚ) : ∀ a d : ℚ, (ewmList a xs).getLastD d = ewmLast a xs := by
  induction xs with
  | nil =>
    intro a d
    rfl
  | cons x rest ih =>
    intro a d
    show (a :: ewmList (wilderStep a x) rest).getLastD d = ewmLast (wilderStep a x) rest
    rw [List.getLastD_cons, ih]

theorem avgGainLast_eq (closes : List ℚ) : avgGainLast closes = ewmLast 0 (diffGains closes) := by
  cases closes with
  | nil => rfl
  | cons c rest =>
    show (ewm (gainsList (c :: rest))).getLastD 0 = _
    rw [show gainsList (c :: rest) = 0 :: diffGains (c :: rest) from rfl]
    exact ewmList_getLastD _ 0 0

theorem avgLossLast_eq (closes : List ℚ) : avgLossLast closes = ewmLast 0 (diffLosses closes) := by
  cases closes with
  | nil => rfl
  | cons c rest =>
    show (ewm (lossesList (c :: rest))).getLastD 0 = _
    rw [show lossesList (c :: rest) = 0 :: diffLosses (c :: rest) from rfl]
    exact ewmList_getLastD _ 0 0

theorem wilderStep_nonneg {a x : ℚ} (ha : 0 ≤ a) (hx : 0 ≤ x) : 0 ≤ wilderStep a x := by
  have h : wilderStep a x = (13 / 14) * a + (1 / 14) * x := by
    unfold wilderStep
    ring
  rw [h]
  exact add_nonneg (mul_nonneg (by norm_num) ha) (mul_nonneg (by norm_num) hx)

theorem ewmLast_nonneg : ∀ (xs : List ℚ) (a : ℚ), 0 ≤ a → (∀ x ∈ xs, 0 ≤ x) → 0 ≤ ewmLast a xs
  | [], _, ha, _ => ha
  | x :: xs, a, ha, h =>
    ewmLast_nonneg xs (wilderStep a x) (wilderStep_nonneg ha (h x (by simp)))
      (fun y hy => h y (by simp [hy]))

theorem mem_zipWith_max_nonneg (f : ℚ → ℚ → ℚ) :
    ∀ (l1 l2 : List ℚ), ∀ y ∈ List.zipWith (fun a b => max (f a b) 0) l1 l2, 0 ≤ y := by
  intro l1
  induction l1 with
  | nil =>
    intro l2 y hy
    simp at hy
  | cons a t ih =>
    intro l2 y hy
    cases l2 with
    | nil => simp at hy
    | cons b t2 =>
      simp only [List.zipWith_cons_cons, List.mem_cons] at hy
      rcases hy with h | h
      · rw [h]
        exact le_max_right _ _
      · exact ih t2 y h

theorem diffGains_nonneg (closes : List ℚ) : ∀ y ∈ diffGains closes, 0 ≤ y :=
  mem_zipWith_max_nonneg (fun a b => b - a) closes closes.tail

theorem diffLosses_nonneg (closes : List ℚ) : ∀ y ∈ diffLosses closes, 0 ≤ y :=
  mem_zipWith_max_nonneg (fun a b => a - b) closes closes.tail

theorem ewmLast_zero : ∀ xs : List ℚ, (∀ x ∈ xs, x = 0) → ewmLast 0 xs = 0
  | [], _ => rfl
  | x :: xs, h => by
    have hx : x = 0 := h x (by simp)
    have hw : wilderStep 0 x = 0 := by
      rw [hx]
      unfold wilderStep
      ring
    rw [show ewmLast 0 (x :: xs) = ewmLast (wilderStep 0 x) xs from rfl, hw]
    exact ewmLast_zero xs (fun y hy => h y (by simp [hy]))

theorem diffGains_const : ∀ (closes : List ℚ) (c : ℚ), (∀ x ∈ closes, x = c) →
    ∀ y ∈ diffGains closes, y = 0 := by
  intro closes
  induction closes with
  | nil =>
    intro c _ y hy
    simp [diffGains] at hy
  | cons a t ih =>
    intro c h y hy
    cases t with
    | nil => simp [diffGains] at hy
    | cons b t2 =>
      have ha : a = c := h a (by simp)
      have hb : b = c := h b (by simp)
      rw [show diffGains (a :: b :: t2) = max (b - a) 0 :: diffGains (b :: t2) from rfl] at hy
      rcases List.mem_cons.mp hy with h' | h'
      · rw [h', ha, hb]
        simp
      · exact ih c (fun x hx => h x (List.mem_cons_of_mem a hx)) y h'

theorem diffLosses_const : ∀ (closes : List ℚ) (c : ℚ), (∀ x ∈ closes, x = c) →
    ∀ y ∈ diffLosses closes, y = 0 := by
  intro closes
  induction closes with
  | nil =>
    intro c _ y hy
    simp [diffLosses] at hy
  | cons a t ih =>
    intro c h y hy
    cases t with
    | nil => simp [diffLosses] at hy
    | cons b t2 =>
      have ha : a = c := h a (by simp)
      have hb : b = c := h b (by simp)
      rw [show diffLosses (a :: b :: t2) = max (a - b) 0 :: diffLosses (b :: t2) from rfl] at hy
      rcases List.mem_cons.mp hy with h' | h'
      · rw [h', ha, hb]
        simp
      · exact ih c (fun x hx => h x (List.mem_cons_of_mem a hx)) y h'

theorem not_bull_and_bear (s : Snapshot) (hb : bullRule s = true) (hr : bearRule s = true) :
    False := by
  simp only [bullRule, bearRule, Bool.and_eq_true, decide_eq_true_eq] at hb hr
  exact (lt_asymm hb.2) hr.2

theorem extractCloses_none : ∀ (bars : List RawBar) (b : RawBar), b ∈ bars →
    extractCell b.close = none → extractCloses bars = none := by
  intro bars
  induction bars with
  | nil =>
    intro b hb
    simp at hb
  | cons a t ih =>
    intro b hb hfail
    rcases List.mem_cons.mp hb with rfl | hmem
    · unfold extractCloses
      rw [hfail]
    · unfold extractCloses
      rw [ih b hmem hfail]
      cases hc : extractCell a.close <;> rfl

theorem sortByVolDesc_sorted (cs : List Candidate) : List.Sorted volGE (sortByVolDesc cs) :=
  List.sorted_insertionSort volGE cs

theorem rankGroup_sorted (cs : List Candidate) (n : Nat) :
    List.Sorted volGE (rankGroup cs n) :=
  (sortByVolDesc_sorted cs).sublist (List.take_sublist n (sortByVolDesc cs))

/-! Claim theorems. -/

/-- C1 (counterexample): the classification step has no price ≤ 50 gate — a
snapshot with price 60 satisfying the bullish rule produces a Bull candidate
with price 60 > 50 in the output bull list, refuting the claim that no
candidate with price > 50 ever appears. -/
theorem price_gate_counterexample :
    50 < (mkCandidate "XYZ" over50Snap Setup.bull).price ∧
    mkCandidate "XYZ" over50Snap Setup.bull ∈ (screenSnapshots [("XYZ", over50Snap)] 20).1 := by
  decide

/-- C1 (amended): the classifier applies no price ceiling at all — any
snapshot satisfying the bullish (resp. bearish) rule contributes its
candidate to the corresponding list, whatever its price (including > 50). -/
theorem no_price_gate :
    (∀ (snaps : List (String × Snapshot)) (t : String) (s : Snapshot),
      (t, s) ∈ snaps → bullRule s = true → mkCandidate t s .bull ∈ collectBulls snaps) ∧
    (∀ (snaps : List (String × Snapshot)) (t : String) (s : Snapshot),
      (t, s) ∈ snaps → bearRule s = true → mkCandidate t s .bear ∈ collectBears snaps) := by
  constructor
  · intro snaps t s hmem hb
    exact List.mem_filterMap.mpr ⟨(t, s), hmem, by simp [classifyBull, hb]⟩
  · intro snaps t s hmem hb
    exact List.mem_filterMap.mpr ⟨(t, s), hmem, by simp [classifyBear, hb]⟩

/-- C1 (witness): the amended theorem applied to the price-60 snapshot. -/
theorem no_price_gate_witness :
    ("XYZ", over50Snap) ∈ [("XYZ", over50Snap)] ∧ bullRule over50Snap = true ∧
    mkCandidate "XYZ" over50Snap .bull ∈ collectBulls [("XYZ", over50Snap)] :=
  ⟨by decide, by decide,
    no_price_gate.1 [("XYZ", over50Snap)] "XYZ" over50Snap (by decide) (by decide)⟩

/-- C2 (counterexample): on the constant series [5, 5, 5] the final smoothed
average loss is 0, yet the RSI is NaN (the 0/0 case), not 100 — refuting the
claim that a zero average loss always yields RSI = 100, including when the
average gain is also 0. -/
theorem rsi_constant_series_counterexample :
    avgLossLast [5, 5, 5] = 0 ∧ rsiOf [5, 5, 5] ≠ some 100 := by
  decide

/-- C2 (amended): whenever the final average loss is 0 and the final average
gain is nonzero, the RSI is exactly 100; the simultaneous-zero case instead
produces NaN (see the C10 theorem). -/
theorem rsi_avgloss_zero_gain_pos (closes : List ℚ)
    (hl : avgLossLast closes = 0) (hg : avgGainLast closes ≠ 0) :
    rsiOf closes = some 100 := by
  unfold rsiOf rsiFrom
  rw [hl]
  simp [hg]

/-- C2 (witness): the series [1, 2] has zero average loss and positive
average gain, and its RSI is exactly 100. -/
theorem rsi_avgloss_zero_gain_pos_witness :
    avgLossLast [1, 2] = 0 ∧ avgGainLast [1, 2] ≠ 0 ∧ rsiOf [1, 2] = some 100 :=
  ⟨by decide, by decide, rsi_avgloss_zero_gain_pos [1, 2] (by decide) (by decide)⟩

/-- C3: the smoothed averages are the `ewm(com=13, adjust=False)` EMA — the
series has the length of its input (whole available history), is seeded with
the first observation, and satisfies `avg[i+1] = avg[i] + (1/14)*(x[i+1] - avg[i])`
at every bar; moreover on a concrete gain series the final EMA value differs
from the 14-bar trailing-window simple average, so the two are not
interchangeable. -/
theorem wilder_ema_recurrence :
    (∀ xs : List ℚ, (ewm xs).length = xs.length) ∧
    (∀ (x : ℚ) (xs : List ℚ), (ewm (x :: xs)).getD 0 0 = x) ∧
    (∀ (xs : List ℚ) (i : Nat), i + 1 < xs.length →
      (ewm xs).getD (i + 1) 0 =
        (ewm xs).getD i 0 + (1 / 14) * (xs.getD (i + 1) 0 - (ewm xs).getD i 0)) ∧
    avgGainLast demoTrend ≠ sma 14 (gainsList demoTrend) := by
  refine ⟨?_, ?_, ?_, ?_⟩
  · intro xs
    cases xs with
    | nil => rfl
    | cons x rest =>
      show (ewmList x rest).length = rest.length + 1
      exact ewmList_length x rest
  · intro x xs
    exact ewmList_getD_zero x xs
  · intro xs i h
    cases xs with
    | nil => simp at h
    | cons x rest =>
      have hi : i < rest.length := by simpa using h
      have h2 := ewmList_getD_succ rest x i hi
      show (ewmList x rest).getD (i + 1) 0 =
          (ewmList x rest).getD i 0 +
            (1 / 14) * ((x :: rest).getD (i + 1) 0 - (ewmList x rest).getD i 0)
      rw [List.getD_cons_succ, h2]
      rfl
  · decide

/-- C3 (witness): the recurrence instantiated on the series [1, 2, 4] at
index 0. -/
theorem wilder_ema_recurrence_witness :
    0 + 1 < ([1, 2, 4] : List ℚ).length ∧
    (ewm [1, 2, 4]).getD (0 + 1) 0 =
      (ewm [1, 2, 4]).getD 0 0 +
        (1 / 14) * (([1, 2, 4] : List ℚ).getD (0 + 1) 0 - (ewm [1, 2, 4]).getD 0 0) :=
  ⟨by decide, wilder_ema_recurrence.2.2.1 [1, 2, 4] 0 (by decide)⟩

/-- C4: every snapshot with a numeric RSI above 40, price inside the 1%
tolerance band above SMA20 and price above SMA50 is emitted as a Bull
candidate. -/
theorem bull_rule_emits (t : String) (s : Snapshot) (r : ℚ)
    (hrsi : s.rsi = some r) (hr : 40 < r)
    (hp20 : s.price < s.sma20 * (101 / 100)) (hp50 : s.sma50 < s.price) :
    classifyBull t s = some (mkCandidate t s .bull) := by
  have hb : bullRule s = true := by
    unfold bullRule rsiGT
    rw [hrsi]
    simp [hr, hp20, hp50]
  simp [classifyBull, hb]

/-- C4 (witness): the spec's tolerance-band instance — price = sma20 * 1.005,
sma50 < price, rsi = 41 — is classified Bull. -/
theorem bull_rule_emits_witness :
    dipSnap.rsi = some 41 ∧ (40 : ℚ) < 41 ∧
    dipSnap.price < dipSnap.sma20 * (101 / 100) ∧ dipSnap.sma50 < dipSnap.price ∧
    classifyBull "DIP" dipSnap = some (mkCandidate "DIP" dipSnap .bull) :=
  ⟨rfl, by decide, by decide, by decide,
    bull_rule_emits "DIP" dipSnap 41 rfl (by decide) (by decide) (by decide)⟩

/-- C5: whenever the final average loss is nonzero, the computed RSI is a
number in the closed interval [0, 100]. -/
theorem rsi_bounded (closes : List ℚ) (h : avgLossLast closes ≠ 0) :
    ∃ r : ℚ, rsiOf closes = some r ∧ 0 ≤ r ∧ r ≤ 100 := by
  have hg0 : 0 ≤ avgGainLast closes := by
    rw [avgGainLast_eq]
    exact ewmLast_nonneg _ 0 le_rfl (diffGains_nonneg closes)
  have hl0 : 0 ≤ avgLossLast closes := by
    rw [avgLossLast_eq]
    exact ewmLast_nonneg _ 0 le_rfl (diffLosses_nonneg closes)
  have hl : 0 < avgLossLast closes := lt_of_le_of_ne hl0 (Ne.symm h)
  have hq : 0 ≤ avgGainLast closes / avgLossLast closes := div_nonneg hg0 hl.le
  have h1 : (0 : ℚ) < 1 + avgGainLast closes / avgLossLast closes := by linarith
  refine ⟨100 - 100 / (1 + avgGainLast closes / avgLossLast closes), ?_, ?_, ?_⟩
  · unfold rsiOf rsiFrom
    rw [if_neg h]
  · have h2 : 100 / (1 + avgGainLast closes / avgLossLast closes) ≤ 100 := by
      rw [div_le_iff₀ h1]
      nlinarith
    linarith
  · have h3 : 0 < 100 / (1 + avgGainLast closes / avgLossLast closes) := by positivity
    linarith

/-- C5 (witness): the series [3, 1] has nonzero average loss, so its RSI is a
number within [0, 100]. -/
theorem rsi_bounded_witness :
    avgLossLast [3, 1] ≠ 0 ∧ ∃ r : ℚ, rsiOf [3, 1] = some r ∧ 0 ≤ r ∧ r ≤ 100 :=
  ⟨by decide, rsi_bounded [3, 1] (by decide)⟩

/-- C6: the normalization step returns Skip (`none`) for every frame with
fewer than 200 bars, whenever the final bar's close or volume cell fails
scalar extraction, and whenever any historical close cell fails extraction —
never a partial snapshot. -/
theorem normalizer_skips :
    (∀ bars : List RawBar, bars.length < 200 → processTicker bars = none) ∧
    (∀ (bars : List RawBar) (b : RawBar), bars.getLast? = some b →
      extractCell b.close = none ∨ extractCell b.volume = none →
      processTicker bars = none) ∧
    (∀ (bars : List RawBar) (b : RawBar), b ∈ bars → extractCell b.close = none →
      processTicker bars = none) := by
  refine ⟨?_, ?_, ?_⟩
  · intro bars h
    unfold processTicker
    rw [if_pos h]
  · intro bars b hlast hfail
    unfold processTicker
    by_cases hlen : bars.length < 200
    · rw [if_pos hlen]
    · rw [if_neg hlen, hlast]
      dsimp only
      rcases hfail with h | h
      · rw [h]
      · cases hc : extractCell b.close with
        | none => rfl
        | some c => rw [h]
  · intro bars b hb hfail
    unfold processTicker
    by_cases hlen : bars.length < 200
    · rw [if_pos hlen]
    · rw [if_neg hlen]
      have hcl : extractCloses bars = none := extractCloses_none bars b hb hfail
      cases hlast : bars.getLast? with
      | none => rfl
      | some lb =>
        dsimp only
        cases hc : extractCell lb.close with
        | none => rfl
        | some c =>
          cases hv : extractCell lb.volume with
          | none => rfl
          | some v => rw [hcl]

/-- C6 (witness): a 5-bar frame is skipped, and a 1-bar frame whose close
cell is malformed is skipped via both the current-bar and historical-bar
conjuncts. -/
theorem normalizer_skips_witness :
    (List.replicate 5 okBar).length < 200 ∧
    processTicker (List.replicate 5 okBar) = none ∧
    [badBar].getLast? = some badBar ∧ extractCell badBar.close = none ∧
    processTicker [badBar] = none ∧ badBar ∈ [badBar] ∧
    processTicker [badBar] = none :=
  ⟨by decide, normalizer_skips.1 (List.replicate 5 okBar) (by decide),
    by decide, by decide,
    normalizer_skips.2.1 [badBar] badBar (by decide) (Or.inl (by decide)),
    by decide,
    normalizer_skips.2.2 [badBar] badBar (by decide) (by decide)⟩

/-- C7: each ranked group is sorted by volume descending and has at most
`topN` entries; tied volumes keep their input order (the sort is stable, so
the output is deterministic for a fixed input order); and on 15 bull
candidates with volumes 0..14 and topN = 10, exactly the 10 highest-volume
candidates are returned, in descending order. -/
theorem ranker_sorted_truncated :
    (∀ (cs : List Candidate) (n : Nat), List.Sorted volGE (rankGroup cs n)) ∧
    (∀ (cs : List Candidate) (n : Nat), (rankGroup cs n).length ≤ n) ∧
    (∀ (a b : Candidate) (cs : List Candidate), a.vol = b.vol → List.Sublist [a, b] cs →
      List.Sublist [a, b] (sortByVolDesc cs)) ∧
    rankGroup ((List.range 15).map mkDemo) 10 =
      (List.range 10).map (fun i => mkDemo (14 - i)) := by
  refine ⟨?_, ?_, ?_, ?_⟩
  · intro cs n
    exact rankGroup_sorted cs n
  · intro cs n
    exact (List.length_take n (sortByVolDesc cs)) ▸ Nat.min_le_left n _
  · intro a b cs hvol hsub
    exact List.pair_sublist_insertionSort (le_of_eq hvol.symm) hsub
  · decide

/-- C7 (witness): the stability conjunct applied to two tied candidates in
input order. -/
theorem ranker_sorted_truncated_witness :
    tieA.vol = tieB.vol ∧ List.Sublist [tieA, tieB] [tieA, tieB] ∧
    List.Sublist [tieA, tieB] (sortByVolDesc [tieA, tieB]) :=
  ⟨rfl, List.Sublist.refl _,
    ranker_sorted_truncated.2.2.1 tieA tieB [tieA, tieB] rfl (List.Sublist.refl _)⟩

/-- C8 (counterexample): the claim's existential scenario is impossible — no
snapshot satisfies both rule sets simultaneously, because the bullish rule
requires price > sma50 while the bearish rule requires price < sma50. -/
theorem both_rules_unsatisfiable :
    ¬ ∃ s : Snapshot, bullRule s = true ∧ bearRule s = true := by
  rintro ⟨s, hb, hr⟩
  exact not_bull_and_bear s hb hr

/-- C8 (amended): the two rules are evaluated independently — each emission
is exactly the truth of its own rule, never suppressed by the other — but the
two rule sets exclude each other by content (price > sma50 vs price < sma50),
so they can never fire together. -/
theorem rules_independent_but_exclusive :
    ∀ (t : String) (s : Snapshot),
      (classifyBull t s).isSome = bullRule s ∧
      (classifyBear t s).isSome = bearRule s ∧
      (bullRule s && bearRule s) = false := by
  intro t s
  refine ⟨?_, ?_, ?_⟩
  · unfold classifyBull
    cases hb : bullRule s <;> simp [hb]
  · unfold classifyBear
    cases hb : bearRule s <;> simp [hb]
  · cases hbull : bullRule s with
    | false => rfl
    | true =>
      cases hbear : bearRule s with
      | false => rfl
      | true => exact (not_bull_and_bear s hbull hbear).elim

/-- C9: ranking is idempotent under truncation — re-ranking a ranked group
with a bound at least its length returns it unchanged. -/
theorem rank_idempotent (cs : List Candidate) (n m : Nat)
    (h : (rankGroup cs n).length ≤ m) :
    rankGroup (rankGroup cs n) m = rankGroup cs n := by
  have heq : sortByVolDesc (rankGroup cs n) = rankGroup cs n :=
    List.Sorted.insertionSort_eq (rankGroup_sorted cs n)
  show (sortByVolDesc (rankGroup cs n)).take m = rankGroup cs n
  rw [heq, List.take_of_length_le h]

/-- C9 (witness): re-ranking the ranked singleton group returns it
unchanged. -/
theorem rank_idempotent_witness :
    (rankGroup [tieA] 20).length ≤ 20 ∧
    rankGroup (rankGroup [tieA] 20) 20 = rankGroup [tieA] 20 :=
  ⟨by decide, rank_idempotent [tieA] 20 20 (by decide)⟩

/-- C10: on a constant-price series both smoothed averages are 0, the RS
quotient is 0/0 and the RSI is NaN; every ordered comparison against a NaN
RSI is false, so such a symbol yields no candidate in either list and no
error. -/
theorem constant_series_rsi_nan :
    (∀ (closes : List ℚ) (c : ℚ), (∀ x ∈ closes, x = c) →
      avgGainLast closes = 0 ∧ avgLossLast closes = 0 ∧ rsiOf closes = none) ∧
    (∀ (t : String) (s : Snapshot), s.rsi = none →
      classifyBull t s = none ∧ classifyBear t s = none) := by
  constructor
  · intro closes c h
    have hg : avgGainLast closes = 0 := by
      rw [avgGainLast_eq]
      exact ewmLast_zero _ (diffGains_const closes c h)
    have hl : avgLossLast closes = 0 := by
      rw [avgLossLast_eq]
      exact ewmLast_zero _ (diffLosses_const closes c h)
    refine ⟨hg, hl, ?_⟩
    unfold rsiOf
    rw [hg, hl]
    rfl
  · intro t s hs
    constructor
    · simp [classifyBull, bullRule, rsiGT, hs]
    · simp [classifyBear, bearRule, rsiLT, hs]

/-- C10 (witness): a 200-bar constant series at price 49 has NaN RSI, and a
snapshot carrying a NaN RSI is classified into neither list. -/
theorem constant_series_rsi_nan_witness :
    (∀ x ∈ List.replicate 200 (49 : ℚ), x = (49 : ℚ)) ∧
    rsiOf (List.replicate 200 (49 : ℚ)) = none ∧
    nanSnap.rsi = none ∧
    classifyBull "FLAT" nanSnap = none ∧ classifyBear "FLAT" nanSnap = none :=
  ⟨fun _ hx => List.eq_of_mem_replicate hx,
    (constant_series_rsi_nan.1 (List.replicate 200 (49 : ℚ)) 49
      (fun _ hx => List.eq_of_mem_replicate hx)).2.2,
    rfl,
    (constant_series_rsi_nan.2 "FLAT" nanSnap rfl).1,
    (constant_series_rsi_nan.2 "FLAT" nanSnap rfl).2⟩

end Screener
